import Mathlib

/-!
# Verification of the creative-automation pipeline core

Shallow embedding, in Lean 4, of the algorithmic core of the
`creative_pipeline` package:

* `slugify` (src/creative_pipeline/utils.py)
* `_compute_cover_scale` / `fit_image_with_safe_bottom_zone`
  (src/creative_pipeline/utils.py)
* the panel/logo-card geometry of `overlay_message_and_logo`
  (src/creative_pipeline/utils.py)
* `review_image_with_gemini`'s defensive parsing
  (src/creative_pipeline/review_and_compliance.py)
* `generate_with_review_loop` (src/creative_pipeline/review_and_compliance.py)

Modelling conventions:

* Python machine floats are modelled by exact rationals (`ℚ`); Python's
  one-argument `round` (round-half-to-even, returning an integer) is
  modelled by `pyRound`; `int(x)` truncation toward zero coincides with
  `Int.floor` on the non-negative quantities that arise here.
* Python strings are modelled by `List Char` pipelines over Lean
  `String`s; character classification (`isalnum`, `lower`, whitespace)
  is modelled by Lean's `Char` primitives, which agree with Python on
  ASCII input.
* Fallible Python code (raising exceptions) is modelled with `Except`.
* The external image objects are irrelevant to the verified logic; an
  image is identified by the (0-based) iteration index that produced it.
-/

namespace CreativePipeline

/-! ## slugify (utils.py lines 17–34)

```python
text = text.strip().lower()
out_chars = []
for ch in text:
    if ch.isalnum():
        out_chars.append(ch)
    elif ch in (" ", "-", "_"):
        out_chars.append("-")
result = "".join(out_chars).strip("-")
return result or "item"
```
-/

/-- Per-character body of the `for ch in text` loop of `slugify`:
alphanumeric characters are kept, each of space/hyphen/underscore becomes
a hyphen, and every other character is dropped. -/
def slugChar (c : Char) : Option Char :=
  if c.isAlphanum then some c
  else if c = ' ' ∨ c = '-' ∨ c = '_' then some '-'
  else none

/-- Python's `str.strip(chars)` on a character list: drop the matching
characters from both ends. -/
def stripEnds (p : Char → Bool) (l : List Char) : List Char :=
  ((l.dropWhile p).reverse.dropWhile p).reverse

/-- The character class stripped by the final `strip("-")`. -/
def isHyphen (c : Char) : Bool := c = '-'

/-- The character pipeline of `slugify`: `strip()` (whitespace), `lower()`,
the keep/translate loop, then `strip("-")`. -/
def slugifyChars (l : List Char) : List Char :=
  stripEnds isHyphen
    (((stripEnds Char.isWhitespace l).map Char.toLower).filterMap slugChar)

/-- `slugify` from utils.py: the pipeline above with the `result or "item"`
fallback. -/
def slugify (text : String) : String :=
  let result := String.mk (slugifyChars text.data)
  if result = "" then "item" else result

/-! ### Generic list lemmas used for the slug proofs -/

theorem dropWhile_dropWhile (p : Char → Bool) (l : List Char) :
    (l.dropWhile p).dropWhile p = l.dropWhile p := by
  have h := List.head?_dropWhile_not p l
  cases hd : l.dropWhile p with
  | nil => rfl
  | cons a t =>
    rw [hd] at h
    simp only [List.head?_cons] at h
    exact List.dropWhile_cons_of_neg (by simp [h])

theorem dropWhile_eq_self_of_forall (p : Char → Bool) (l : List Char)
    (h : ∀ c ∈ l, p c = false) : l.dropWhile p = l := by
  cases l with
  | nil => rfl
  | cons a t =>
    exact List.dropWhile_cons_of_neg (by simp [h a (List.mem_cons_self a t)])

theorem dropWhile_eq_nil_of_forall (p : Char → Bool) (l : List Char)
    (h : ∀ c ∈ l, p c = true) : l.dropWhile p = [] := by
  induction l with
  | nil => rfl
  | cons a t ih =>
    rw [List.dropWhile_cons_of_pos (h a (List.mem_cons_self a t))]
    exact ih (fun c hc => h c (List.mem_cons_of_mem a hc))

theorem stripEnds_eq_nil_of_forall (p : Char → Bool) (l : List Char)
    (h : ∀ c ∈ l, p c = true) : stripEnds p l = [] := by
  unfold stripEnds
  rw [dropWhile_eq_nil_of_forall p l h]
  rfl

theorem mem_stripEnds (p : Char → Bool) (l : List Char) (c : Char)
    (h : c ∈ stripEnds p l) : c ∈ l := by
  unfold stripEnds at h
  rw [List.mem_reverse] at h
  have h1 := (List.dropWhile_sublist p).mem h
  rw [List.mem_reverse] at h1
  exact (List.dropWhile_sublist p).mem h1

theorem stripEnds_eq_self_of_forall (p : Char → Bool) (l : List Char)
    (h : ∀ c ∈ l, p c = false) : stripEnds p l = l := by
  unfold stripEnds
  rw [dropWhile_eq_self_of_forall p l h]
  rw [dropWhile_eq_self_of_forall p l.reverse
    (fun c hc => h c (List.mem_reverse.mp hc))]
  exact List.reverse_reverse l

theorem dropWhile_eq_self_of_append (p : Char → Bool) (l B r : List Char)
    (hl : l.dropWhile p = l) (hBr : B ++ r = l) : B.dropWhile p = B := by
  cases B with
  | nil => rfl
  | cons b t =>
    have hpb : p b = false := by
      by_contra hb
      rw [Bool.not_eq_false] at hb
      have h2 : l = (t ++ r).dropWhile p := by
        rw [← hl, ← hBr]
        simp [List.dropWhile_cons, hb]
      have hlen := (List.dropWhile_sublist (l := t ++ r) p).length_le
      rw [← h2, ← hBr] at hlen
      simp only [List.cons_append, List.length_cons, List.length_append] at hlen
      omega
    exact List.dropWhile_cons_of_neg (by simp [hpb])

theorem stripEnds_idem (p : Char → Bool) (l : List Char) :
    stripEnds p (stripEnds p l) = stripEnds p l := by
  unfold stripEnds
  obtain ⟨t, ht⟩ :
      ∃ t, t ++ (l.dropWhile p).reverse.dropWhile p = (l.dropWhile p).reverse :=
    List.dropWhile_suffix p
  have hdecomp :
      ((l.dropWhile p).reverse.dropWhile p).reverse ++ t.reverse = l.dropWhile p := by
    rw [← List.reverse_append, ht, List.reverse_reverse]
  have hfront :
      (((l.dropWhile p).reverse.dropWhile p).reverse).dropWhile p
        = ((l.dropWhile p).reverse.dropWhile p).reverse :=
    dropWhile_eq_self_of_append p (l.dropWhile p) _ t.reverse
      (dropWhile_dropWhile p l) hdecomp
  rw [hfront, List.reverse_reverse, dropWhile_dropWhile]

theorem filterMap_eq_self_of_forall (f : Char → Option Char) (l : List Char)
    (h : ∀ c ∈ l, f c = some c) : l.filterMap f = l := by
  induction l with
  | nil => rfl
  | cons a t ih =>
    rw [List.filterMap_cons, h a (List.mem_cons_self a t)]
    rw [ih (fun c hc => h c (List.mem_cons_of_mem a hc))]

theorem map_eq_self_of_forall (f : Char → Char) (l : List Char)
    (h : ∀ c ∈ l, f c = c) : l.map f = l := by
  induction l with
  | nil => rfl
  | cons a t ih =>
    rw [List.map_cons, h a (List.mem_cons_self a t)]
    rw [ih (fun c hc => h c (List.mem_cons_of_mem a hc))]

/-! ### Character-level lemmas -/

theorem toNat_ofNat_valid (n : Nat) (h : n < 55296) : (Char.ofNat n).toNat = n := by
  rw [Char.ofNat, dif_pos (Or.inl h)]
  rfl

theorem toLower_toLower (c : Char) : c.toLower.toLower = c.toLower := by
  simp only [Char.toLower]
  by_cases h : c.toNat ≥ 65 ∧ c.toNat ≤ 90
  · rw [if_pos h]
    have hv : (Char.ofNat (c.toNat + 32)).toNat = c.toNat + 32 :=
      toNat_ofNat_valid _ (by omega)
    rw [if_neg (by rw [hv]; omega)]
  · rw [if_neg h, if_neg h]

theorem isAlphanum_of_upper_range (c : Char) (h1 : 65 ≤ c.toNat) (h2 : c.toNat ≤ 90) :
    c.isAlphanum = true := by
  have hu : c.isUpper = true := by
    simp only [Char.isUpper, Bool.and_eq_true, decide_eq_true_eq]
    constructor
    · rw [ge_iff_le, UInt32.le_def, BitVec.le_def]
      exact h1
    · rw [UInt32.le_def, BitVec.le_def]
      exact h2
  simp [Char.isAlphanum, Char.isAlpha, hu]

theorem toLower_eq_self_of_not_alphanum (c : Char) (h : c.isAlphanum = false) :
    c.toLower = c := by
  simp only [Char.toLower]
  rw [if_neg]
  intro hc
  exact absurd (isAlphanum_of_upper_range c hc.1 hc.2) (by simp [h])

theorem not_whitespace_of_alphanum (c : Char) (h : c.isAlphanum = true) :
    c.isWhitespace = false := by
  by_contra hw
  rw [Bool.not_eq_false] at hw
  simp only [Char.isWhitespace, Bool.or_eq_true, decide_eq_true_eq] at hw
  rcases hw with ((h1 | h1) | h1) | h1 <;> subst h1 <;> exact absurd h (by decide)

theorem slugChar_eq_some (c d : Char) (h : slugChar c = some d) :
    (d = c ∧ c.isAlphanum = true) ∨ d = '-' := by
  unfold slugChar at h
  by_cases h1 : c.isAlphanum = true
  · rw [if_pos h1] at h
    exact Or.inl ⟨(Option.some_inj.mp h).symm, h1⟩
  · rw [if_neg h1] at h
    by_cases h2 : c = ' ' ∨ c = '-' ∨ c = '_'
    · rw [if_pos h2] at h
      exact Or.inr (Option.some_inj.mp h).symm
    · rw [if_neg h2] at h
      exact absurd h (by simp)

theorem slugChar_self (d : Char) (h : d.isAlphanum = true ∨ d = '-') :
    slugChar d = some d := by
  rcases h with h | h
  · unfold slugChar
    rw [if_pos h]
  · subst h
    decide

theorem mem_slugifyChars (l : List Char) (d : Char) (h : d ∈ slugifyChars l) :
    (d.isAlphanum = true ∧ d.toLower = d) ∨ d = '-' := by
  unfold slugifyChars at h
  have h1 := mem_stripEnds _ _ _ h
  rw [List.mem_filterMap] at h1
  obtain ⟨a, ha, hsome⟩ := h1
  rw [List.mem_map] at ha
  obtain ⟨c0, _, hc0⟩ := ha
  rcases slugChar_eq_some a d hsome with ⟨hda, halnum⟩ | hd
  · subst hda
    subst hc0
    exact Or.inl ⟨halnum, toLower_toLower c0⟩
  · exact Or.inr hd

theorem head?_stripEnds (p : Char → Bool) (l : List Char) (a : Char)
    (h : (stripEnds p l).head? = some a) : p a = false := by
  unfold stripEnds at h
  obtain ⟨t, ht⟩ :
      ∃ t, t ++ (l.dropWhile p).reverse.dropWhile p = (l.dropWhile p).reverse :=
    List.dropWhile_suffix p
  have hdecomp :
      ((l.dropWhile p).reverse.dropWhile p).reverse ++ t.reverse = l.dropWhile p := by
    rw [← List.reverse_append, ht, List.reverse_reverse]
  cases hC : ((l.dropWhile p).reverse.dropWhile p).reverse with
  | nil =>
    rw [hC] at h
    simp at h
  | cons b m =>
    rw [hC] at h
    simp only [List.head?_cons, Option.some_inj] at h
    have hhead : (l.dropWhile p).head? = some b := by
      rw [← hdecomp, hC]
      rfl
    have h2 := List.head?_dropWhile_not p l
    rw [hhead] at h2
    simp only at h2
    rw [← h]
    exact h2

theorem getLast?_stripEnds (p : Char → Bool) (l : List Char) (a : Char)
    (h : (stripEnds p l).getLast? = some a) : p a = false := by
  unfold stripEnds at h
  rw [List.getLast?_reverse] at h
  have h2 := List.head?_dropWhile_not p (l.dropWhile p).reverse
  rw [h] at h2
  simpa using h2

/-! ### Fixed points of the pipeline -/

theorem slugifyChars_fixed (m : List Char)
    (h : ∀ d ∈ m, (d.isAlphanum = true ∧ d.toLower = d) ∨ d = '-')
    (hstrip : stripEnds isHyphen m = m) :
    slugifyChars m = m := by
  unfold slugifyChars
  have hws : stripEnds Char.isWhitespace m = m := by
    apply stripEnds_eq_self_of_forall
    intro c hc
    rcases h c hc with ⟨ha, _⟩ | hh
    · exact not_whitespace_of_alphanum c ha
    · subst hh
      decide
  rw [hws]
  have hmap : m.map Char.toLower = m := by
    apply map_eq_self_of_forall
    intro c hc
    rcases h c hc with ⟨_, hl⟩ | hh
    · exact hl
    · subst hh
      decide
  rw [hmap]
  have hfm : m.filterMap slugChar = m := by
    apply filterMap_eq_self_of_forall
    intro c hc
    apply slugChar_self
    rcases h c hc with ⟨ha, _⟩ | hh
    · exact Or.inl ha
    · exact Or.inr hh
  rw [hfm, hstrip]

theorem stripEnds_slugifyChars (l : List Char) :
    stripEnds isHyphen (slugifyChars l) = slugifyChars l := by
  unfold slugifyChars
  exact stripEnds_idem _ _

theorem slugifyChars_slugifyChars (l : List Char) :
    slugifyChars (slugifyChars l) = slugifyChars l :=
  slugifyChars_fixed _ (fun d hd => mem_slugifyChars l d hd) (stripEnds_slugifyChars l)

theorem slugify_data (s : String) (hm : slugifyChars s.data ≠ []) :
    slugify s = String.mk (slugifyChars s.data) := by
  unfold slugify
  rw [if_neg]
  intro h
  exact hm (congrArg String.data h)

theorem slugify_of_nil (s : String) (hm : slugifyChars s.data = []) :
    slugify s = "item" := by
  unfold slugify
  rw [hm]
  rfl

/-! ### Claims C9 and C10 -/

/-- C9 (counterexample). The claim states that `slugify` collapses runs of
separators into single hyphens and that it returns `"item"` exactly when the
input is empty or consists only of stripped characters. Both parts fail on
the code: `slugify "a  b"` is `"a--b"` (the two spaces each become a hyphen;
runs are not collapsed, so the result is not `"a-b"`), and `slugify "item"`
is `"item"` even though `"item"` consists entirely of kept alphanumeric
characters. -/
theorem C9_counterexample :
    slugify "a  b" = "a--b" ∧ slugify "a  b" ≠ "a-b" ∧ slugify "item" = "item" := by
  decide

/-- C9 (amended). For every input string, `slugify` keeps only alphanumeric
characters and hyphens, lowercases every character (each output character is
a fixed point of `toLower`), maps each of space/hyphen/underscore to its own
hyphen (runs are preserved, not collapsed), strips leading and trailing
hyphens (the result never starts or ends with a hyphen), never returns the
empty string, and returns `"item"` whenever the input has no alphanumeric
character at all. -/
theorem C9_slugify_amended (s : String) :
    slugify s ≠ "" ∧
    (∀ c ∈ (slugify s).data, c.isAlphanum = true ∨ c = '-') ∧
    (∀ c ∈ (slugify s).data, c.toLower = c) ∧
    (slugify s).data.head? ≠ some '-' ∧
    (slugify s).data.getLast? ≠ some '-' ∧
    ((∀ c ∈ s.data, c.isAlphanum = false) → slugify s = "item") := by
  by_cases hm : slugifyChars s.data = []
  · rw [slugify_of_nil s hm]
    exact ⟨by decide, by decide, by decide, by decide, by decide, fun _ => rfl⟩
  · have hdata : (slugify s).data = slugifyChars s.data := by
      rw [slugify_data s hm]
    refine ⟨?_, ?_, ?_, ?_, ?_, ?_⟩
    · rw [slugify_data s hm]
      intro h
      exact hm (congrArg String.data h)
    · rw [hdata]
      intro c hc
      rcases mem_slugifyChars s.data c hc with ⟨ha, _⟩ | hh
      · exact Or.inl ha
      · exact Or.inr hh
    · rw [hdata]
      intro c hc
      rcases mem_slugifyChars s.data c hc with ⟨_, hl⟩ | hh
      · exact hl
      · subst hh
        decide
    · rw [hdata]
      intro hcontra
      have h1 : isHyphen '-' = false := head?_stripEnds isHyphen _ '-' hcontra
      exact absurd h1 (by decide)
    · rw [hdata]
      intro hcontra
      have h1 : isHyphen '-' = false := getLast?_stripEnds isHyphen _ '-' hcontra
      exact absurd h1 (by decide)
    · intro hall
      exfalso
      apply hm
      unfold slugifyChars
      have hally : ∀ d ∈ ((stripEnds Char.isWhitespace s.data).map
          Char.toLower).filterMap slugChar, isHyphen d = true := by
        intro d hd
        rw [List.mem_filterMap] at hd
        obtain ⟨a, ha, hsome⟩ := hd
        rw [List.mem_map] at ha
        obtain ⟨c0, hc0mem, hc0⟩ := ha
        have hc0n : c0.isAlphanum = false := hall c0 (mem_stripEnds _ _ _ hc0mem)
        have hac0 : a = c0 := by
          rw [← hc0, toLower_eq_self_of_not_alphanum c0 hc0n]
        rcases slugChar_eq_some a d hsome with ⟨_, hanum⟩ | hd1
        · rw [hac0, hc0n] at hanum
          exact absurd hanum (by simp)
        · subst hd1
          decide
      exact stripEnds_eq_nil_of_forall _ _ hally

/-- C9 (witness for the amended claim, at a symbol-only input): `slugify`
of `"!!!"` is the fallback `"item"`. -/
theorem C9_slugify_amended_witness : slugify "!!!" = "item" :=
  (C9_slugify_amended "!!!").2.2.2.2.2 (by decide)

/-- C10: `slugify` is idempotent — applying it to its own output returns
the output unchanged — and its result is never the empty string. -/
theorem C10_slugify_idempotent (s : String) :
    slugify (slugify s) = slugify s ∧ slugify s ≠ "" := by
  constructor
  · by_cases hm : slugifyChars s.data = []
    · rw [slugify_of_nil s hm]
      decide
    · rw [slugify_data s hm]
      have hcalc : slugify (String.mk (slugifyChars s.data)) =
          if String.mk (slugifyChars (slugifyChars s.data)) = "" then "item"
          else String.mk (slugifyChars (slugifyChars s.data)) := rfl
      rw [hcalc, slugifyChars_slugifyChars]
      exact if_neg (fun h => hm (congrArg String.data h))
  · by_cases hm : slugifyChars s.data = []
    · rw [slugify_of_nil s hm]
      decide
    · rw [slugify_data s hm]
      exact fun h => hm (congrArg String.data h)

/-! ## Review results and defensive parsing
(review_and_compliance.py lines 83–263)

`ImageReviewResult` mirrors the Python dataclass (the `raw_json` field is
dropped: it is never read by the loop).  Python's `json.loads` output is
modelled by `PyJson`; the outcome of the `json.loads(raw)` call is passed
to the embedded adapter as an `Option PyJson` (`none` = the call raised,
i.e. the text is not valid JSON), since the JSON grammar itself is Python
standard-library code, not code of this repository. -/

/-- Structured result from the Gemini review (dataclass `ImageReviewResult`). -/
structure ImageReviewResult where
  legal_compliant : Bool
  brand_compliant : Bool
  compliant : Bool
  quality_score : Int
  feedback : String
deriving Repr, DecidableEq

/-- A parsed Python JSON value (ints stand in for JSON numbers; the reviewed
fields are booleans and integers, so this loses nothing the adapter reads). -/
inductive PyJson where
  | null : PyJson
  | bool (b : Bool) : PyJson
  | num (n : Int) : PyJson
  | str (s : String) : PyJson
  | arr (elems : List PyJson) : PyJson
  | obj (fields : List (String × PyJson)) : PyJson

/-- Exceptions the adapter can raise. -/
inductive PyError where
  | emptyResponse : PyError
  | attributeError : PyError
  | valueError : PyError
  | typeError : PyError
deriving Repr, DecidableEq

/-- Python truthiness (`bool(x)`) of a JSON value. -/
def pyTruthy : PyJson → Bool
  | .null => false
  | .bool b => b
  | .num n => n ≠ 0
  | .str s => s ≠ ""
  | .arr l => !l.isEmpty
  | .obj l => !l.isEmpty

/-- Python's `data.get(key, default)`: only dictionaries have `.get`;
on any other value an `AttributeError` is raised. -/
def pyDictGet (data : PyJson) (key : String) (dflt : PyJson) : Except PyError PyJson :=
  match data with
  | .obj fields =>
    match fields.find? (fun kv => kv.1 = key) with
    | some kv => .ok kv.2
    | none => .ok dflt
  | _ => .error .attributeError

/-- Python's `int(x)` on a JSON value: ints pass through, booleans become
0/1, numeric strings are parsed (`ValueError` otherwise), and `None`,
lists and dicts raise `TypeError`. -/
def pyInt : PyJson → Except PyError Int
  | .num n => .ok n
  | .bool b => .ok (if b then 1 else 0)
  | .str s =>
    match s.toInt? with
    | some n => .ok n
    | none => .error .valueError
  | _ => .error .typeError

/-- Python's `str(x)` on a JSON value (the adapter only applies it to the
`feedback` field; for containers the exact rendering is irrelevant to every
claim and a placeholder is used). -/
def pyStr : PyJson → String
  | .null => "None"
  | .bool b => if b then "True" else "False"
  | .num n => toString n
  | .str s => s
  | .arr _ => "[...]"
  | .obj _ => "{...}"

/-- Python's `str.strip()`: remove whitespace from both ends. -/
def pyStrip (s : String) : String :=
  String.mk (stripEnds Char.isWhitespace s.data)

/-- The conservative fallback dictionary substituted when `json.loads`
raises (review_and_compliance.py lines 242–248). -/
def fallbackData (raw : String) : PyJson :=
  .obj [("legal_compliant", .bool false),
        ("brand_compliant", .bool false),
        ("compliant", .bool false),
        ("quality_score", .num 0),
        ("feedback", .str (if raw = "" then "Model did not return JSON." else raw))]

/-- The response-handling tail of `review_image_with_gemini`
(review_and_compliance.py lines 230–263), as a function of the raw response
text and of the outcome of `json.loads` on it (`none` = parse failure). -/
def review_image_with_gemini (raw : String) (parsed : Option PyJson) :
    Except PyError ImageReviewResult :=
  let raw := pyStrip raw
  if raw = "" then .error .emptyResponse
  else
    let data : PyJson :=
      match parsed with
      | some j => j
      | none => fallbackData raw
    do
    let lj ← pyDictGet data "legal_compliant" (.bool false)
    let legal := pyTruthy lj
    let bj ← pyDictGet data "brand_compliant" (.bool false)
    let brand := pyTruthy bj
    let cj ← pyDictGet data "compliant" (.bool (legal && brand))
    let compliant := pyTruthy cj
    let qj ← pyDictGet data "quality_score" (.num 0)
    let q ← pyInt qj
    let fj ← pyDictGet data "feedback" (.str "")
    let feedback := pyStrip (pyStr fj)
    .ok { legal_compliant := legal, brand_compliant := brand,
          compliant := compliant, quality_score := q, feedback := feedback }

/-! ## The generate/review loop
(review_and_compliance.py lines 266–386, `generate_with_review_loop`)

The scripted review outcomes are a function `reviews : Nat → ImageReviewResult`
(iteration index ↦ the review of the image generated at that iteration), and
an image is identified by its 0-based iteration index: iteration `i`
generates image `i` and `reviews i` is its review.  The fatal
`RuntimeError` raised after exhausting all iterations without a compliant
image is the `Except.error` case. -/

/-- The loop's failure: "Failed to generate a legally and brand-compliant
image after N iterations." -/
inductive LoopError where
  | noCompliantImage : LoopError
deriving Repr, DecidableEq

/-- Tracking of the best compliant image seen so far (lines 355–359):
replace the stored best only when the new compliant review's score strictly
exceeds the stored one. -/
def updateBest (best : Option (Nat × ImageReviewResult)) (i : Nat)
    (review : ImageReviewResult) : Option (Nat × ImageReviewResult) :=
  match best with
  | none => some (i, review)
  | some (j, r) =>
    if review.quality_score > r.quality_score then some (i, review) else some (j, r)

/-- The body of `for iteration in range(max_iterations)` (lines 328–374):
`remaining` counts the iterations still to run, `i` is the current
iteration index and `best` the best compliant result so far. -/
def reviewLoopAux (reviews : Nat → ImageReviewResult) (min_q : Int) :
    Nat → Nat → Option (Nat × ImageReviewResult) →
    Except LoopError (Nat × ImageReviewResult)
  | 0, _, best =>
    match best with
    | none => .error .noCompliantImage
    | some b => .ok b
  | remaining + 1, i, best =>
    let review := reviews i
    if review.compliant then
      let best' := updateBest best i review
      if review.quality_score ≥ min_q then .ok (i, review)
      else reviewLoopAux reviews min_q remaining (i + 1) best'
    else reviewLoopAux reviews min_q remaining (i + 1) best

/-- `generate_with_review_loop`: run `max_iterations` iterations from
iteration 0 with no best-compliant result stored. -/
def generate_with_review_loop (reviews : Nat → ImageReviewResult)
    (max_iterations : Nat) (min_quality_score : Int) :
    Except LoopError (Nat × ImageReviewResult) :=
  reviewLoopAux reviews min_quality_score max_iterations 0 none

/-- A scripted review outcome with the given compliance flags and score. -/
def mkReview (legal brand compliant : Bool) (score : Int) : ImageReviewResult :=
  { legal_compliant := legal, brand_compliant := brand, compliant := compliant,
    quality_score := score, feedback := "" }

/-! ### Loop invariants -/

theorem mem_updateBest (best : Option (Nat × ImageReviewResult)) (i : Nat)
    (review : ImageReviewResult) (b : Nat × ImageReviewResult)
    (hb : b ∈ updateBest best i review) : b = (i, review) ∨ b ∈ best := by
  rw [Option.mem_def] at hb
  cases best with
  | none =>
    simp only [updateBest] at hb
    exact Or.inl (Option.some_inj.mp hb).symm
  | some p =>
    obtain ⟨j0, r0⟩ := p
    simp only [updateBest] at hb
    by_cases hgt : review.quality_score > r0.quality_score
    · rw [if_pos hgt] at hb
      exact Or.inl (Option.some_inj.mp hb).symm
    · rw [if_neg hgt] at hb
      exact Or.inr (by rw [Option.mem_def]; exact hb)

theorem updateBest_compliant (best : Option (Nat × ImageReviewResult)) (i : Nat)
    (review : ImageReviewResult)
    (hbest : ∀ b ∈ best, b.2.compliant = true) (hrev : review.compliant = true) :
    ∀ b ∈ updateBest best i review, b.2.compliant = true := by
  intro b hb
  rcases mem_updateBest best i review b hb with h | h
  · rw [h]
    exact hrev
  · exact hbest b h

theorem reviewLoopAux_ok_compliant (reviews : Nat → ImageReviewResult) (q : Int) :
    ∀ (remaining i : Nat) (best : Option (Nat × ImageReviewResult)),
    (∀ b ∈ best, b.2.compliant = true) →
    ∀ j r, reviewLoopAux reviews q remaining i best = .ok (j, r) →
    r.compliant = true := by
  intro remaining
  induction remaining with
  | zero =>
    intro i best hbest j r h
    cases best with
    | none => exact absurd h (by simp [reviewLoopAux])
    | some b =>
      obtain ⟨b1, b2⟩ := b
      simp only [reviewLoopAux, Except.ok.injEq, Prod.mk.injEq] at h
      have hc : b2.compliant = true := hbest (b1, b2) rfl
      rw [← h.2]
      exact hc
  | succ rem ih =>
    intro i best hbest j r h
    simp only [reviewLoopAux] at h
    by_cases hci : (reviews i).compliant = true
    · rw [if_pos hci] at h
      by_cases hq : (reviews i).quality_score ≥ q
      · rw [if_pos hq] at h
        simp only [Except.ok.injEq, Prod.mk.injEq] at h
        rw [← h.2]
        exact hci
      · rw [if_neg hq] at h
        exact ih (i + 1) (updateBest best i (reviews i))
          (updateBest_compliant best i (reviews i) hbest hci) j r h
    · rw [if_neg hci] at h
      exact ih (i + 1) best hbest j r h

theorem reviewLoopAux_error_of_none (reviews : Nat → ImageReviewResult) (q : Int) :
    ∀ (remaining i : Nat),
    (∀ k, i ≤ k → k < i + remaining → (reviews k).compliant = false) →
    reviewLoopAux reviews q remaining i none = .error .noCompliantImage := by
  intro remaining
  induction remaining with
  | zero => intro i _; rfl
  | succ rem ih =>
    intro i h
    simp only [reviewLoopAux]
    rw [if_neg (by rw [h i (le_refl i) (by omega)]; simp)]
    exact ih (i + 1) (fun k hk1 hk2 => h k (by omega) (by omega))

theorem reviewLoopAux_ok_mem (reviews : Nat → ImageReviewResult) (q : Int) :
    ∀ (remaining i : Nat) (best : Option (Nat × ImageReviewResult)),
    (∀ b ∈ best, b.1 < i ∧ b.2 = reviews b.1) →
    ∀ j r, reviewLoopAux reviews q remaining i best = .ok (j, r) →
    j < i + remaining ∧ r = reviews j := by
  intro remaining
  induction remaining with
  | zero =>
    intro i best hbest j r h
    cases best with
    | none => exact absurd h (by simp [reviewLoopAux])
    | some b =>
      obtain ⟨b1, b2⟩ := b
      simp only [reviewLoopAux, Except.ok.injEq, Prod.mk.injEq] at h
      obtain ⟨hb1, hb2⟩ := h
      obtain ⟨h1, h2⟩ := hbest (b1, b2) rfl
      have h1' : b1 < i := h1
      have h2' : b2 = reviews b1 := h2
      subst hb1
      subst hb2
      exact ⟨by omega, h2'⟩
  | succ rem ih =>
    intro i best hbest j r h
    simp only [reviewLoopAux] at h
    by_cases hci : (reviews i).compliant = true
    · rw [if_pos hci] at h
      by_cases hq : (reviews i).quality_score ≥ q
      · rw [if_pos hq] at h
        simp only [Except.ok.injEq, Prod.mk.injEq] at h
        obtain ⟨h1, h2⟩ := h
        subst h1
        exact ⟨by omega, h2.symm⟩
      · rw [if_neg hq] at h
        have hbest' : ∀ b ∈ updateBest best i (reviews i), b.1 < i + 1 ∧ b.2 = reviews b.1 := by
          intro b hb
          rcases mem_updateBest best i (reviews i) b hb with hbi | hbold
          · subst hbi
            exact ⟨by omega, rfl⟩
          · obtain ⟨h1, h2⟩ := hbest b hbold
            exact ⟨by omega, h2⟩
        have := ih (i + 1) _ hbest' j r h
        exact ⟨by omega, this.2⟩
    · rw [if_neg hci] at h
      have hbest' : ∀ b ∈ best, b.1 < i + 1 ∧ b.2 = reviews b.1 := by
        intro b hb
        obtain ⟨h1, h2⟩ := hbest b hb
        exact ⟨by omega, h2⟩
      have := ih (i + 1) best hbest' j r h
      exact ⟨by omega, this.2⟩

theorem reviewLoopAux_early (reviews : Nat → ImageReviewResult) (q : Int) (j : Nat)
    (hc : (reviews j).compliant = true) (hq : (reviews j).quality_score ≥ q)
    (hmin : ∀ k, k < j → (reviews k).compliant = true → (reviews k).quality_score < q) :
    ∀ (remaining i : Nat) (best : Option (Nat × ImageReviewResult)),
    i ≤ j → j < i + remaining →
    reviewLoopAux reviews q remaining i best = .ok (j, reviews j) := by
  intro remaining
  induction remaining with
  | zero => intro i best h1 h2; omega
  | succ rem ih =>
    intro i best h1 h2
    simp only [reviewLoopAux]
    by_cases hij : i = j
    · subst hij
      rw [if_pos hc, if_pos hq]
    · have hilt : i < j := lt_of_le_of_ne h1 hij
      by_cases hci : (reviews i).compliant = true
      · rw [if_pos hci, if_neg (by have := hmin i hilt hci; omega)]
        exact ih (i + 1) _ (by omega) (by omega)
      · rw [if_neg hci]
        exact ih (i + 1) best (by omega) (by omega)

theorem reviewLoopAux_keep_best (reviews : Nat → ImageReviewResult) (q : Int)
    (j : Nat) (rj : ImageReviewResult) :
    ∀ (remaining i : Nat),
    (∀ k, i ≤ k → k < i + remaining → (reviews k).compliant = true →
      (reviews k).quality_score < q ∧ (reviews k).quality_score ≤ rj.quality_score) →
    reviewLoopAux reviews q remaining i (some (j, rj)) = .ok (j, rj) := by
  intro remaining
  induction remaining with
  | zero => intro i _; rfl
  | succ rem ih =>
    intro i h
    simp only [reviewLoopAux]
    by_cases hci : (reviews i).compliant = true
    · obtain ⟨h1, h2⟩ := h i (le_refl i) (by omega) hci
      rw [if_pos hci, if_neg (by omega)]
      have hupd : updateBest (some (j, rj)) i (reviews i) = some (j, rj) := by
        simp only [updateBest]
        rw [if_neg (by omega)]
      rw [hupd]
      exact ih (i + 1) (fun k hk1 hk2 hck => h k (by omega) (by omega) hck)
    · rw [if_neg hci]
      exact ih (i + 1) (fun k hk1 hk2 hck => h k (by omega) (by omega) hck)

theorem reviewLoopAux_best (reviews : Nat → ImageReviewResult) (q : Int) (j : Nat) :
    ∀ (remaining i : Nat) (best : Option (Nat × ImageReviewResult)),
    i ≤ j → j < i + remaining →
    (reviews j).compliant = true →
    (∀ k, i ≤ k → k < i + remaining → (reviews k).compliant = true →
      (reviews k).quality_score < q) →
    (∀ k, i ≤ k → k < i + remaining → (reviews k).compliant = true →
      (reviews k).quality_score ≤ (reviews j).quality_score) →
    (∀ k, i ≤ k → k < j → (reviews k).compliant = true →
      (reviews k).quality_score < (reviews j).quality_score) →
    (∀ b ∈ best, b.2.quality_score < (reviews j).quality_score) →
    reviewLoopAux reviews q remaining i best = .ok (j, reviews j) := by
  intro remaining
  induction remaining with
  | zero => intro i best h1 h2; omega
  | succ rem ih =>
    intro i best h1 h2 hcj hnoex hmax hearliest hbest
    simp only [reviewLoopAux]
    by_cases hij : i = j
    · subst hij
      rw [if_pos hcj, if_neg (by have := hnoex i (le_refl i) (by omega) hcj; omega)]
      have hupd : updateBest best i (reviews i) = some (i, reviews i) := by
        cases best with
        | none => rfl
        | some p =>
          obtain ⟨j0, r0⟩ := p
          simp only [updateBest]
          rw [if_pos (hbest (j0, r0) rfl)]
      rw [hupd]
      exact reviewLoopAux_keep_best reviews q i (reviews i) rem (i + 1)
        (fun k hk1 hk2 hck =>
          ⟨hnoex k (by omega) (by omega) hck, hmax k (by omega) (by omega) hck⟩)
    · have hilt : i < j := lt_of_le_of_ne h1 hij
      by_cases hci : (reviews i).compliant = true
      · rw [if_pos hci, if_neg (by have := hnoex i (le_refl i) (by omega) hci; omega)]
        apply ih (i + 1) _ (by omega) (by omega) hcj
          (fun k hk1 hk2 hck => hnoex k (by omega) (by omega) hck)
          (fun k hk1 hk2 hck => hmax k (by omega) (by omega) hck)
          (fun k hk1 hk2 hck => hearliest k (by omega) hk2 hck)
        intro b hb
        rcases mem_updateBest best i (reviews i) b hb with hbi | hbold
        · subst hbi
          exact hearliest i (le_refl i) hilt hci
        · exact hbest b hbold
      · rw [if_neg hci]
        exact ih (i + 1) best (by omega) (by omega) hcj
          (fun k hk1 hk2 hck => hnoex k (by omega) (by omega) hck)
          (fun k hk1 hk2 hck => hmax k (by omega) (by omega) hck)
          (fun k hk1 hk2 hck => hearliest k (by omega) hk2 hck)
          hbest

/-! ### Claims C1–C4 -/

/-- C1: whenever `generate_with_review_loop` returns normally, the review it
returns has `compliant = true`; and when no iteration among the
`max_iterations` produced a compliant review, the loop raises the fatal
`RuntimeError` (modelled as `Except.error`) instead of returning.  (In
processor.py the output file is written only after the loop returns, so the
raise means no `creative.png` is produced for that unit of work.)  -/
theorem C1_loop_never_returns_noncompliant (reviews : Nat → ImageReviewResult)
    (n : Nat) (q : Int) :
    (∀ j r, generate_with_review_loop reviews n q = .ok (j, r) → r.compliant = true) ∧
    ((∀ k, k < n → (reviews k).compliant = false) →
      generate_with_review_loop reviews n q = .error .noCompliantImage) := by
  constructor
  · intro j r h
    exact reviewLoopAux_ok_compliant reviews q n 0 none (by simp) j r h
  · intro hnone
    exact reviewLoopAux_error_of_none reviews q n 0 (fun k _ hk => hnone k (by omega))

/-- Scripted outcomes for the C1 witness: every iteration non-compliant. -/
def c1Script : Nat → ImageReviewResult := fun _ => mkReview false false false 90

/-- C1 (witness): with three scripted non-compliant reviews the loop fails
fatally. -/
theorem C1_witness :
    generate_with_review_loop c1Script 3 80 = .error .noCompliantImage :=
  (C1_loop_never_returns_noncompliant c1Script 3 80).2 (fun _ _ => rfl)

/-- C2: the loop returns at the first iteration `j` whose review is
compliant with `quality_score ≥ min_quality_score`, returning exactly that
iteration's image and review; the conclusion holds for every script
`reviews'` that agrees with `reviews` up to iteration `j`, so no later
iteration influences the result. -/
theorem C2_early_exit (reviews reviews' : Nat → ImageReviewResult)
    (n j : Nat) (q : Int)
    (hagree : ∀ k, k ≤ j → reviews' k = reviews k)
    (hj : j < n)
    (hc : (reviews j).compliant = true)
    (hq : (reviews j).quality_score ≥ q)
    (hmin : ∀ k, k < j → (reviews k).compliant = true →
      (reviews k).quality_score < q) :
    generate_with_review_loop reviews' n q = .ok (j, reviews j) := by
  have hc' : (reviews' j).compliant = true := by
    rw [hagree j (le_refl j)]
    exact hc
  have hq' : (reviews' j).quality_score ≥ q := by
    rw [hagree j (le_refl j)]
    exact hq
  have hmin' : ∀ k, k < j → (reviews' k).compliant = true →
      (reviews' k).quality_score < q := by
    intro k hk
    rw [hagree k (le_of_lt hk)]
    exact hmin k hk
  have h := reviewLoopAux_early reviews' q j hc' hq' hmin' n 0 none
    (by omega) (by omega)
  rw [hagree j (le_refl j)] at h
  exact h

/-- Scripted outcomes for the C2 witness:
(compliant, score) = [(false, 0), (true, 60), (true, 85)]. -/
def c2Script : Nat → ImageReviewResult
  | 0 => mkReview false false false 0
  | 1 => mkReview true true true 60
  | _ => mkReview true true true 85

/-- C2 (witness): on the scripted outcomes with threshold 80 and
`max_iterations = 3` the loop returns the 3rd iteration's image (index 2)
and its review. -/
theorem C2_witness :
    generate_with_review_loop c2Script 3 80 = .ok (2, mkReview true true true 85) := by
  have h := C2_early_exit c2Script c2Script 3 2 80 (fun _ _ => rfl) (by omega)
    (by decide) (by decide)
    (by
      intro k hk hck
      interval_cases k
      · exact absurd hck (by decide)
      · decide)
  exact h

/-- C3: when the loop exhausts `max_iterations` with no early exit but at
least one compliant iteration, it returns the compliant result whose
quality score is maximal, keeping the earliest one at ties (a later result
replaces the stored best only on a strictly larger score). -/
theorem C3_best_compliant (reviews : Nat → ImageReviewResult) (n j : Nat) (q : Int)
    (hj : j < n)
    (hcj : (reviews j).compliant = true)
    (hnoex : ∀ k, k < n → (reviews k).compliant = true →
      (reviews k).quality_score < q)
    (hmax : ∀ k, k < n → (reviews k).compliant = true →
      (reviews k).quality_score ≤ (reviews j).quality_score)
    (hearliest : ∀ k, k < j → (reviews k).compliant = true →
      (reviews k).quality_score < (reviews j).quality_score) :
    generate_with_review_loop reviews n q = .ok (j, reviews j) :=
  reviewLoopAux_best reviews q j n 0 (none) (by omega) (by omega) hcj
    (fun k _ hk hck => hnoex k (by omega) hck)
    (fun k _ hk hck => hmax k (by omega) hck)
    (fun k _ hk hck => hearliest k hk hck)
    (by simp)

/-- Scripted outcomes for the C3 witness:
(compliant, score) = [(true, 50), (true, 40), (true, 30)]. -/
def c3Script : Nat → ImageReviewResult
  | 0 => mkReview true true true 50
  | 1 => mkReview true true true 40
  | _ => mkReview true true true 30

/-- C3 (witness): on the scripted outcomes with threshold 80 the loop
exhausts 3 iterations and returns iteration 1's result (index 0, the
highest score 50). -/
theorem C3_witness :
    generate_with_review_loop c3Script 3 80 = .ok (0, mkReview true true true 50) := by
  have h := C3_best_compliant c3Script 3 0 80 (by omega) (by decide)
    (by
      intro k hk hck
      interval_cases k <;> decide)
    (by
      intro k hk hck
      interval_cases k <;> decide)
    (by
      intro k hk
      omega)
  exact h

/-- C4 (counterexample). The claim asserts `compliant = true →
legal_compliant = true ∧ brand_compliant = true` in every result the loop
accepts as final.  The adapter takes the `compliant` flag from the
capability's JSON when it is present (line 252), without re-deriving it
from the two sub-flags, and the loop checks only `review.compliant`; so a
response `{"compliant": true, "quality_score": 90}` yields a final result
with `compliant = true` but `legal_compliant = false`. -/
theorem C4_counterexample :
    review_image_with_gemini "x"
      (some (.obj [("compliant", .bool true), ("quality_score", .num 90)]))
      = .ok (mkReview false false true 90) ∧
    generate_with_review_loop (fun _ => mkReview false false true 90) 1 80
      = .ok (0, mkReview false false true 90) ∧
    (mkReview false false true 90).compliant = true ∧
    (mkReview false false true 90).legal_compliant = false :=
  ⟨rfl, rfl, rfl, rfl⟩

/-- C4 (amended): the loop preserves the invariant rather than enforcing
it — whenever every scripted review satisfies `compliant → legal ∧ brand`
(as holds in particular when the capability omits the `compliant` key, so
the adapter derives it as `legal && brand`), every result the loop accepts
as final satisfies it too. -/
theorem C4_compliance_preserved (reviews : Nat → ImageReviewResult)
    (n : Nat) (q : Int)
    (h : ∀ k, k < n → (reviews k).compliant = true →
      (reviews k).legal_compliant = true ∧ (reviews k).brand_compliant = true) :
    ∀ j r, generate_with_review_loop reviews n q = .ok (j, r) →
      r.compliant = true →
      r.legal_compliant = true ∧ r.brand_compliant = true := by
  intro j r hloop hc
  obtain ⟨hjn, hr⟩ := reviewLoopAux_ok_mem reviews q n 0 none (by simp) j r hloop
  subst hr
  exact h j (by omega) hc

/-- C4 (witness for the amended claim): a script whose reviews satisfy the
invariant yields a final result satisfying it. -/
theorem C4_witness :
    (mkReview true true true 90).legal_compliant = true ∧
    (mkReview true true true 90).brand_compliant = true :=
  C4_compliance_preserved (fun _ => mkReview true true true 90) 1 80
    (fun _ _ _ => ⟨rfl, rfl⟩) 0 (mkReview true true true 90) rfl rfl

/-! ### Claim C5 -/

/-- C5 (counterexample). The claim asserts that every response text that is
not parseable as the expected structured object maps to the conservative
default, never an exception.  Two such texts raise instead: `"42"` is valid
JSON but not an object, so `data.get` raises `AttributeError` (line 250
operates on the parsed integer), and the empty response raises
`RuntimeError` before parsing (line 234). -/
theorem C5_counterexample :
    review_image_with_gemini "42" (some (.num 42)) = .error .attributeError ∧
    review_image_with_gemini "" none = .error .emptyResponse :=
  ⟨rfl, rfl⟩

/-- C5 (amended): for every nonempty response text on which `json.loads`
fails (parse outcome `none`), the adapter returns the conservative default
— all compliance booleans false and `quality_score = 0`, with the stripped
raw text as feedback — and raises no exception; texts that parse to a
non-object (or an empty response) raise instead. -/
theorem C5_parse_failure_conservative (raw : String) (hne : pyStrip raw ≠ "") :
    review_image_with_gemini raw none =
      .ok { legal_compliant := false, brand_compliant := false, compliant := false,
            quality_score := 0, feedback := pyStrip raw } := by
  have hidem : pyStrip (pyStrip raw) = pyStrip raw := by
    unfold pyStrip
    rw [show (String.mk (stripEnds Char.isWhitespace raw.data)).data
        = stripEnds Char.isWhitespace raw.data from rfl]
    rw [stripEnds_idem]
  have hred : review_image_with_gemini raw none =
      .ok { legal_compliant := false, brand_compliant := false, compliant := false,
            quality_score := 0, feedback := pyStrip (pyStrip raw) } := by
    unfold review_image_with_gemini
    rw [if_neg hne]
    unfold fallbackData
    rw [if_neg hne]
    rfl
  rw [hred, hidem]

/-- C5 (witness for the amended claim): the unparseable text `"not json"`
maps to the conservative default. -/
theorem C5_witness :
    review_image_with_gemini "not json" none =
      .ok { legal_compliant := false, brand_compliant := false, compliant := false,
            quality_score := 0, feedback := pyStrip "not json" } :=
  C5_parse_failure_conservative "not json" (by decide)

/-! ## Cover fit and biased crop (utils.py lines 78–116)

Python's machine-float arithmetic is modelled by exact rationals, and
`round` (one argument, on a float — round-half-to-even returning an int)
by `pyRound`.  `img.resize` and `img.crop` act on pixel buffers; the
geometry that the claims speak about is the crop box `(left, top, right,
bottom)` — PIL's `crop` returns an image of exactly
`(right - left, bottom - top)` pixels (padding when the box leaves the
source), which `cropSize` records. -/

/-- Python's `round(x)`: nearest integer, ties to the even one. -/
def pyRound (x : ℚ) : ℤ :=
  if x - Int.floor x < 1 / 2 then Int.floor x
  else if x - Int.floor x > 1 / 2 then Int.floor x + 1
  else if Int.floor x % 2 = 0 then Int.floor x else Int.floor x + 1

theorem floor_le_pyRound (x : ℚ) : Int.floor x ≤ pyRound x := by
  unfold pyRound
  split_ifs <;> omega

theorem pyRound_le_floor_add_one (x : ℚ) : pyRound x ≤ Int.floor x + 1 := by
  unfold pyRound
  split_ifs <;> omega

theorem pyRound_le (x : ℚ) : (pyRound x : ℚ) ≤ x + 1 / 2 := by
  have h1 : (Int.floor x : ℚ) ≤ x := Int.floor_le x
  have h2 : x < Int.floor x + 1 := Int.lt_floor_add_one x
  unfold pyRound
  split_ifs with ha hb hc
  · linarith
  · push_cast
    linarith
  · linarith
  · push_cast
    linarith

theorem le_pyRound (x : ℚ) : x - 1 / 2 ≤ (pyRound x : ℚ) := by
  have h1 : (Int.floor x : ℚ) ≤ x := Int.floor_le x
  have h2 : x < Int.floor x + 1 := Int.lt_floor_add_one x
  unfold pyRound
  split_ifs with ha hb hc
  · linarith
  · push_cast
    linarith
  · linarith
  · push_cast
    linarith

/-- `_compute_cover_scale` (utils.py lines 78–84): the uniform
scale-to-cover factor `max(dw / sw, dh / sh)`. -/
def _compute_cover_scale (sw sh dw dh : ℕ) : ℚ :=
  max ((dw : ℚ) / sw) ((dh : ℚ) / sh)

/-- `int(round(img.width * scale))` — the resized width. -/
def newWidth (sw sh dw dh : ℕ) : ℤ :=
  pyRound ((sw : ℚ) * _compute_cover_scale sw sh dw dh)

/-- `int(round(img.height * scale))` — the resized height. -/
def newHeight (sw sh dw dh : ℕ) : ℤ :=
  pyRound ((sh : ℚ) * _compute_cover_scale sw sh dw dh)

/-- The crop rectangle handed to `resized.crop(box)`. -/
structure CropBox where
  left : ℤ
  top : ℤ
  right : ℤ
  bottom : ℤ
deriving Repr, DecidableEq

/-- `fit_image_with_safe_bottom_zone` (utils.py lines 87–116): resize to
cover, center horizontally (`(new_w - dst_w) // 2`, clamped at 0), and
bias the vertical crop by `0.35` of the excess height. -/
def fit_image_with_safe_bottom_zone (sw sh dw dh : ℕ) : CropBox :=
  let new_w := newWidth sw sh dw dh
  let new_h := newHeight sw sh dw dh
  let left := max 0 (Int.fdiv (new_w - dw) 2)
  let right := left + dw
  let excess_h := new_h - dh
  let top : ℤ := if excess_h ≤ 0 then 0 else pyRound ((excess_h : ℚ) * (7 / 20))
  let bottom := top + dh
  ⟨left, top, right, bottom⟩

/-- The pixel size of `resized.crop(box)`: exactly
`(right - left, bottom - top)`. -/
def cropSize (b : CropBox) : ℤ × ℤ := (b.right - b.left, b.bottom - b.top)

theorem fit_top_eq (sw sh dw dh : ℕ) :
    (fit_image_with_safe_bottom_zone sw sh dw dh).top
      = if newHeight sw sh dw dh - dh ≤ 0 then 0
        else pyRound (((newHeight sw sh dw dh - dh : ℤ) : ℚ) * (7 / 20)) := rfl

theorem crop_size_eq (sw sh dw dh : ℕ) :
    cropSize (fit_image_with_safe_bottom_zone sw sh dw dh) = ((dw : ℤ), (dh : ℤ)) := by
  simp only [cropSize, fit_image_with_safe_bottom_zone]
  rw [Prod.mk.injEq]
  constructor <;> ring

/-! ### Claims C6 and C7 -/

/-- C6: for every source size with both dimensions at least 1 and every
destination size among 1080×1080, 1080×1920, 1920×1080, the crop box
produced by `fit_image_with_safe_bottom_zone` has exactly the requested
destination width and height, hence so does the returned image. -/
theorem C6_output_size (sw sh : ℕ) (hsw : 1 ≤ sw) (hsh : 1 ≤ sh) (dw dh : ℕ)
    (hd : (dw, dh) = (1080, 1080) ∨ (dw, dh) = (1080, 1920) ∨
      (dw, dh) = (1920, 1080)) :
    cropSize (fit_image_with_safe_bottom_zone sw sh dw dh) = ((dw : ℤ), (dh : ℤ)) :=
  crop_size_eq sw sh dw dh

/-- C6 (witness): an 800×600 source fitted to the 1080×1080 canvas. -/
theorem C6_witness :
    cropSize (fit_image_with_safe_bottom_zone 800 600 1080 1080) = (1080, 1080) :=
  C6_output_size 800 600 (by decide) (by decide) 1080 1080 (Or.inl rfl)

/-- C7: the vertical crop offset is 0 whenever the scaled height is at most
the destination height; otherwise it is `round(0.35 × (scaled − dest))`
(Python `round`, over the exact-rational model of the float product) and
the offset plus the destination height never exceeds the scaled height. -/
theorem C7_crop_offset (sw sh dw dh : ℕ) (hsw : 1 ≤ sw) (hsh : 1 ≤ sh) :
    (newHeight sw sh dw dh - dh ≤ 0 →
      (fit_image_with_safe_bottom_zone sw sh dw dh).top = 0) ∧
    (0 < newHeight sw sh dw dh - dh →
      (fit_image_with_safe_bottom_zone sw sh dw dh).top
        = pyRound (((newHeight sw sh dw dh - dh : ℤ) : ℚ) * (7 / 20)) ∧
      (fit_image_with_safe_bottom_zone sw sh dw dh).top + dh
        ≤ newHeight sw sh dw dh) := by
  constructor
  · intro h
    rw [fit_top_eq, if_pos h]
  · intro h
    have hneg : ¬ (newHeight sw sh dw dh - (dh : ℤ) ≤ 0) := by omega
    refine ⟨by rw [fit_top_eq, if_neg hneg], ?_⟩
    rw [fit_top_eq, if_neg hneg]
    have he1 : (1 : ℤ) ≤ newHeight sw sh dw dh - dh := by omega
    have heq : (1 : ℚ) ≤ ((newHeight sw sh dw dh - dh : ℤ) : ℚ) := by
      exact_mod_cast he1
    have hb := pyRound_le (((newHeight sw sh dw dh - dh : ℤ) : ℚ) * (7 / 20))
    have hq : (pyRound (((newHeight sw sh dw dh - dh : ℤ) : ℚ) * (7 / 20)) : ℚ)
        ≤ ((newHeight sw sh dw dh - dh : ℤ) : ℚ) := by
      linarith
    have hz : pyRound (((newHeight sw sh dw dh - dh : ℤ) : ℚ) * (7 / 20))
        ≤ newHeight sw sh dw dh - dh := by
      exact_mod_cast hq
    omega

theorem newHeight_at_c7_witness : newHeight 500 1000 1080 1080 = 2160 := by
  norm_num [newHeight, _compute_cover_scale, pyRound, max_def]

/-- C7 (witness): a 500×1000 source fitted to 1080×1080 scales to height
2160, and the offset `round(0.35 × 1080) = 378` keeps the crop inside the
scaled image. -/
theorem C7_witness :
    (fit_image_with_safe_bottom_zone 500 1000 1080 1080).top
      = pyRound (((newHeight 500 1000 1080 1080 - (1080 : ℕ) : ℤ) : ℚ) * (7 / 20)) ∧
    (fit_image_with_safe_bottom_zone 500 1000 1080 1080).top + (1080 : ℕ)
      ≤ newHeight 500 1000 1080 1080 :=
  (C7_crop_offset 500 1000 1080 1080 (by decide) (by decide)).2
    (by rw [newHeight_at_c7_witness]; decide)

/-! ## Panel / logo-card geometry of overlay_message_and_logo
(utils.py lines 164–339)

The constants `int(w*0.05)`, `int(h*0.06)`, `int(h*0.14)`, `int(c*0.25)`,
`int(w*0.4)`, `int(h*0.26)`, `int(w*0.03)`, `int(h*0.025)` are modelled by
the exact floor divisions `w*5/100`, `h*6/100`, `h*14/100`, `c*25/100`,
`w*4/10`, `h*26/100`, `w*3/100`, `h*25/1000` on naturals (truncation and
floor agree on non-negative values).  Pillow's text measurement is
abstracted into `measure : Nat → ℕ × ℕ`, giving for each font-scale index
`0..5` the `(text_w, text_h)` of the wrapped message's bounding box at that
scale — the only thing the geometry reads from it.  `logo = some (lw, lh)`
means `brand.logo_path` is set and resolves to a loadable `lw×lh` image;
`none` means the card is skipped. -/

/-- `margin_x = int(w * 0.05)`. -/
def marginX (w : ℕ) : ℕ := w * 5 / 100

/-- `margin_y = int(h * 0.06)`. -/
def marginY (h : ℕ) : ℕ := h * 6 / 100

/-- `card_target_h = int(h * 0.14)` — the logo image target height. -/
def cardTargetH (h : ℕ) : ℕ := h * 14 / 100

/-- `card_pad = int(card_target_h * 0.25)` — padding inside the card. -/
def cardPad (h : ℕ) : ℕ := cardTargetH h * 25 / 100

/-- `card_x0 = w - margin_x - card_w` with the assumed roughly-square card
`card_w = card_target_h + 2*card_pad` (lines 203–212, before the logo is
loaded). -/
def assumedCardX0 (w h : ℕ) : ℤ :=
  ((w : ℤ) - marginX w) - (cardTargetH h + 2 * cardPad h)

/-- `max_panel_right = card_x0 - 2*margin_x` (line 219): leave at least
`2*margin_x` between panel and logo. -/
def maxPanelRight (w h : ℕ) : ℤ := assumedCardX0 w h - 2 * (marginX w : ℤ)

/-- `panel_max_width = max(int(w * 0.4), max_panel_right - margin_x)`
(line 220). -/
def panelMaxWidth (w h : ℕ) : ℤ :=
  max ((w * 4 / 10 : ℕ) : ℤ) (maxPanelRight w h - marginX w)

/-- `max_panel_height = int(h * 0.26)` (line 222). -/
def maxPanelHeight (h : ℕ) : ℕ := h * 26 / 100

/-- `pad_x = int(w * 0.03)`. -/
def padX (w : ℕ) : ℕ := w * 3 / 100

/-- `pad_y = int(h * 0.025)`. -/
def padY (h : ℕ) : ℕ := h * 25 / 1000

/-- The font-size search (lines 224–255): the first of the six scale
indices whose padded panel height fits under `max_panel_height`, `none`
when even the smallest is too tall (then the fallback at lines 257–276
re-measures scale index 5). -/
def chosenScale (h : ℕ) (measure : Nat → ℕ × ℕ) : Option ℕ :=
  (List.range 6).find? (fun i => (measure i).2 + 2 * padY h ≤ maxPanelHeight h)

/-- The panel width: `min(panel_max_width, text_w + 2*pad_x)` for the
chosen scale (line 247), measured at index 5 in the fallback (line 275). -/
def panelW (w h : ℕ) (measure : Nat → ℕ × ℕ) : ℤ :=
  match chosenScale h measure with
  | some i => min (panelMaxWidth w h) (((measure i).1 + 2 * padX w : ℕ) : ℤ)
  | none => min (panelMaxWidth w h) (((measure 5).1 + 2 * padX w : ℕ) : ℤ)

/-- The panel height: `text_h + 2*pad_y` for the chosen scale (line 248),
clipped to `max_panel_height` in the fallback (line 276). -/
def panelH (h : ℕ) (measure : Nat → ℕ × ℕ) : ℤ :=
  match chosenScale h measure with
  | some i => ((measure i).2 + 2 * padY h : ℕ)
  | none => (min (maxPanelHeight h) ((measure 5).2 + 2 * padY h) : ℕ)

/-- `logo_w = int(logo.width * (card_target_h / logo.height))` (lines
311–312). -/
def logoW (h lw lh : ℕ) : ℕ := lw * cardTargetH h / lh

/-- `logo_h = int(logo.height * (card_target_h / logo.height))`. -/
def logoH (h lw lh : ℕ) : ℕ := lh * cardTargetH h / lh

/-- The logo card rectangle `(x0, y0, x1, y1)` actually drawn (lines
316–322): recomputed from the loaded logo's scaled size, anchored at the
bottom-right margin; `none` when there is no logo to draw. -/
def drawnCard (w h : ℕ) (logo : Option (ℕ × ℕ)) : Option (ℤ × ℤ × ℤ × ℤ) :=
  match logo with
  | none => none
  | some (lw, lh) =>
    some (((w : ℤ) - marginX w) - (logoW h lw lh + 2 * cardPad h),
          ((h : ℤ) - marginY h) - (logoH h lw lh + 2 * cardPad h),
          (w : ℤ) - marginX w,
          (h : ℤ) - marginY h)

/-- The layout geometry computed by `overlay_message_and_logo`: the
text-panel rectangle (bottom-left anchored, lines 278–282) and the drawn
logo card. -/
structure OverlayGeom where
  margin_x : ℤ
  margin_y : ℤ
  panel_x0 : ℤ
  panel_x1 : ℤ
  panel_y0 : ℤ
  panel_y1 : ℤ
  card : Option (ℤ × ℤ × ℤ × ℤ)
deriving Repr, DecidableEq

/-- Assembles the geometry of `overlay_message_and_logo` for a `w×h`
canvas, a message whose wrapped bounding box at scale `i` is `measure i`,
and an optional loaded logo of size `lw×lh`. -/
def overlayGeom (w h : ℕ) (measure : Nat → ℕ × ℕ) (logo : Option (ℕ × ℕ)) :
    OverlayGeom :=
  { margin_x := (marginX w : ℤ)
    margin_y := (marginY h : ℤ)
    panel_x0 := (marginX w : ℤ)
    panel_x1 := (marginX w : ℤ) + panelW w h measure
    panel_y0 := ((h : ℤ) - marginY h) - panelH h measure
    panel_y1 := (h : ℤ) - marginY h
    card := drawnCard w h logo }

/-! ### Claim C8 -/

/-- Scripted text measurements for the C8 counterexample: every font scale
measures the wrapped message at 500×50 pixels. -/
def c8Measure : Nat → ℕ × ℕ := fun _ => (500, 50)

/-- C8 (counterexample). The claim asserts the panel and the drawn card
never overlap — panel right edge ≤ card left edge − 2×margin — for brands
whose logo has any aspect ratio.  The width budget is enforced against the
*assumed square* card, but the drawn card is recomputed from the loaded
logo (line 317); a 1000×100 logo on the 1080×1080 canvas scales to width
1510, pushing the drawn card's left edge to −558 while the panel's right
edge is 618 > −558 − 2·54: the rectangles overlap. -/
theorem C8_counterexample :
    (overlayGeom 1080 1080 c8Measure (some (1000, 100))).panel_x1 = 618 ∧
    (overlayGeom 1080 1080 c8Measure (some (1000, 100))).margin_x = 54 ∧
    (overlayGeom 1080 1080 c8Measure (some (1000, 100))).card
      = some (-558, 791, 1026, 1016) ∧
    ¬ ((618 : ℤ) ≤ -558 - 2 * 54) := by
  refine ⟨?_, rfl, rfl, by decide⟩
  decide

/-- C8 (amended): the non-collision bound holds whenever the shrunk width
budget is the binding one (`int(0.4·w) ≤ max_panel_right − margin_x`, true
in particular for the three supported canvases 1080×1080, 1080×1920,
1920×1080) and the drawn logo is at most as wide as it is tall (so the
recomputed card is no wider than the assumed square card): then for every
message measurement the panel's right edge is at most the drawn card's
left edge minus `2*margin_x`, enforced before the font-size search by the
width budget. -/
theorem C8_no_overlap (w h : ℕ) (measure : Nat → ℕ × ℕ) (logo : Option (ℕ × ℕ))
    (hlogo : ∀ p ∈ logo, 1 ≤ p.2 ∧ p.1 ≤ p.2)
    (hbudget : ((w * 4 / 10 : ℕ) : ℤ) ≤ maxPanelRight w h - marginX w) :
    ∀ c ∈ (overlayGeom w h measure logo).card,
      (overlayGeom w h measure logo).panel_x1
        ≤ c.1 - 2 * (overlayGeom w h measure logo).margin_x := by
  intro c hc
  cases logo with
  | none => exact absurd hc (by simp [overlayGeom, drawnCard])
  | some p =>
    obtain ⟨lw, lh⟩ := p
    obtain ⟨hlh, hlwlh⟩ := hlogo (lw, lh) rfl
    rw [Option.mem_def] at hc
    have hcard : (overlayGeom w h measure (some (lw, lh))).card
        = some (((w : ℤ) - marginX w) - (logoW h lw lh + 2 * cardPad h),
                ((h : ℤ) - marginY h) - (logoH h lw lh + 2 * cardPad h),
                (w : ℤ) - marginX w,
                (h : ℤ) - marginY h) := rfl
    rw [hcard] at hc
    have hcval := Option.some_inj.mp hc
    have hx1 : (overlayGeom w h measure (some (lw, lh))).panel_x1
        = (marginX w : ℤ) + panelW w h measure := rfl
    have hmx : (overlayGeom w h measure (some (lw, lh))).margin_x
        = (marginX w : ℤ) := rfl
    have hc1 : c.1 = ((w : ℤ) - marginX w) - (logoW h lw lh + 2 * cardPad h) := by
      rw [← hcval]
    have hpw : panelW w h measure ≤ panelMaxWidth w h := by
      unfold panelW
      cases chosenScale h measure <;> exact min_le_left _ _
    have hpmw : panelMaxWidth w h = maxPanelRight w h - marginX w :=
      max_eq_right hbudget
    have hlogoWn : logoW h lw lh ≤ cardTargetH h := by
      unfold logoW
      calc lw * cardTargetH h / lh
        ≤ lh * cardTargetH h / lh :=
          Nat.div_le_div_right (Nat.mul_le_mul_right _ hlwlh)
        _ = cardTargetH h := Nat.mul_div_cancel_left _ hlh
    have hlogoWz : (logoW h lw lh : ℤ) ≤ (cardTargetH h : ℤ) := by
      exact_mod_cast hlogoWn
    rw [hx1, hmx, hc1]
    have hmpr : maxPanelRight w h
        = (((w : ℤ) - marginX w) - (cardTargetH h + 2 * cardPad h))
          - 2 * (marginX w : ℤ) := rfl
    omega

/-- Scripted text measurements for the C8 witness. -/
def c8GoodMeasure : Nat → ℕ × ℕ := fun _ => (200, 50)

/-- C8 (witness for the amended claim): on the 1080×1080 canvas with a
square 100×100 logo the panel's right edge stays left of the drawn card
(left edge 801) by at least `2*margin_x`. -/
theorem C8_witness :
    (overlayGeom 1080 1080 c8GoodMeasure (some (100, 100))).panel_x1
      ≤ (801 : ℤ) - 2 * (overlayGeom 1080 1080 c8GoodMeasure (some (100, 100))).margin_x :=
  C8_no_overlap 1080 1080 c8GoodMeasure (some (100, 100))
    (by
      intro p hp
      rw [← Option.some_inj.mp hp]
      exact ⟨by decide, by decide⟩)
    (by decide)
    (801, 791, 1026, 1016) (by decide)

end CreativePipeline
